import Mathlib

/-!
Verification of the core matching-and-naming resolution engine of the
batch file-rename tool (`file_rename_tool_optimized.py`).

The Python source is shallowly embedded: strings are `String`/`List Char`,
the pandas data frame becomes a list of rows whose cells are `Option String`
(`none` models a missing/NaN cell, which `dropna` removes), the filesystem
is a listing of names plus an existence predicate, and the Tk tree of
preview records becomes a list of `PRecord`.  Python's `str.lower` is
modelled on the ASCII range (every string manipulated by the tool is
compared via ASCII letters or CJK characters, which `lower` leaves fixed).
-/

namespace Szt

/-- ASCII-range model of Python `str.lower` on one character. -/
def pyLowerChar (c : Char) : Char :=
  if 'A' ≤ c ∧ c ≤ 'Z' then Char.ofNat (c.toNat + 32) else c

/-- Lowercase a whole string, as `s.lower()` in the source. -/
def lowerS (s : String) : String :=
  String.mk (s.toList.map pyLowerChar)

/-- Whitespace class used by Python's `\s` regex and `str.strip`
(ASCII part plus the common Unicode space code points). -/
def pySpace (c : Char) : Bool :=
  let n := c.toNat
  n == 0x20 || n == 0x09 || n == 0x0a || n == 0x0b || n == 0x0c || n == 0x0d ||
  n == 0x1c || n == 0x1d || n == 0x1e || n == 0x1f || n == 0x85 || n == 0xa0 ||
  n == 0x1680 || (0x2000 <= n && n <= 0x200a) || n == 0x2028 || n == 0x2029 ||
  n == 0x202f || n == 0x205f || n == 0x3000

/-- The reserved character class `[<>:"/\\|?*]` removed by the sanitizer. -/
def isReserved (c : Char) : Bool :=
  c == '<' || c == '>' || c == ':' || c == '"' || c == '/' || c == '\\' ||
  c == '|' || c == '?' || c == '*'

/-- The control character class `[\x00-\x1F\x7F]` removed by the sanitizer. -/
def isCtrl (c : Char) : Bool :=
  c.toNat ≤ 31 || c.toNat == 127

/-- `re.sub(r'[<>:"/\\|?*]', '', s)`. -/
def rmReserved (l : List Char) : List Char :=
  l.filter (fun c => !isReserved c)

/-- `re.sub(r'[\x00-\x1F\x7F]', '', s)`. -/
def rmCtrl (l : List Char) : List Char :=
  l.filter (fun c => !isCtrl c)

/-- Replace every maximal run of characters satisfying `p` by the single
character `rep`; models `re.sub(cls+'+', rep, s)` for a character class.
(`re.sub(r'\.\x7b2,\x7d', '.', s)` collapses runs of two or more dots to one
dot and leaves single dots alone, which is the same as collapsing every
maximal dot run to one dot.) -/
def collapseRunsAux (p : Char → Bool) (rep : Char) : Bool → List Char → List Char
  | _, [] => []
  | true, c :: rest =>
    if p c then collapseRunsAux p rep true rest
    else c :: collapseRunsAux p rep false rest
  | false, c :: rest =>
    if p c then rep :: collapseRunsAux p rep true rest
    else c :: collapseRunsAux p rep false rest

/-- Collapse maximal runs, starting outside a run. -/
def collapseRuns (p : Char → Bool) (rep : Char) (l : List Char) : List Char :=
  collapseRunsAux p rep false l

/-- Drop the trailing characters satisfying `p`. -/
def dropTrailing (p : Char → Bool) : List Char → List Char
  | [] => []
  | c :: rest =>
    let r := dropTrailing p rest
    if r.isEmpty && p c then [] else c :: r

/-- Python `str.strip()` on a character list. -/
def pyStrip (l : List Char) : List Char :=
  dropTrailing pySpace (l.dropWhile pySpace)

/-- Python `str.strip()` on a string. -/
def pyStripS (s : String) : String :=
  String.mk (pyStrip s.toList)

/-- `os.path.splitext` restricted to plain names (no path separators, which
is the only way the tool calls it): split at the last dot provided some
non-dot character precedes it. -/
def splitextL (l : List Char) : List Char × List Char :=
  match ((l.enum.filter (fun p => p.2 == '.')).map Prod.fst).getLast? with
  | none => (l, [])
  | some d => if (l.take d).all (· == '.') then (l, []) else (l.take d, l.drop d)

/-- `os.path.splitext` on strings. -/
def splitext (s : String) : String × String :=
  let (a, b) := splitextL s.toList
  (String.mk a, String.mk b)

/-- `os.path.basename` restricted to separator handling: everything after
the last `/` or `\\` (the tool only ever passes names already free of
separators, where this is the identity). -/
def pyBasename (s : String) : String :=
  String.mk ((s.toList.reverse.takeWhile (fun c => c != '/' && c != '\\')).reverse)

/-- MAX_FILENAME_LENGTH from the source. -/
def MAX_FILENAME_LENGTH : Nat := 255

/-- The fallback label the sanitizer returns for empty input or empty result. -/
def fallbackName : String := "未命名"

/-- The character-cleaning phase of `_sanitize_filename` (everything before
the length truncation): remove reserved characters, remove control
characters, collapse dot runs, collapse whitespace runs to one space, strip. -/
def cleanName (l : List Char) : List Char :=
  pyStrip (collapseRuns pySpace ' ' (collapseRuns (· == '.') '.' (rmCtrl (rmReserved l))))

/-- The length-limiting phase of `_sanitize_filename`. -/
def truncateName (l : List Char) : List Char :=
  if l.length > MAX_FILENAME_LENGTH then
    if (splitextL l).2.length < MAX_FILENAME_LENGTH then
      (splitextL l).1.take (MAX_FILENAME_LENGTH - (splitextL l).2.length) ++ (splitextL l).2
    else
      l.take MAX_FILENAME_LENGTH
  else l

/-- `FileRenameTool._sanitize_filename`. -/
def sanitizeFilename (s : String) : String :=
  if s.toList.isEmpty then fallbackName
  else if (truncateName (cleanName s.toList)).isEmpty then fallbackName
  else String.mk (truncateName (cleanName s.toList))

example : sanitizeFilename "a<b" = "ab" := by decide
example : sanitizeFilename "" = "未命名" := by decide
example : sanitizeFilename "a..b" = "a.b" := by decide
example : sanitizeFilename "  a   b  " = "a b" := by decide
example : splitext "Anna_report.pdf" = ("Anna_report", ".pdf") := by decide
example : splitext ".bashrc" = (".bashrc", "") := by decide
example : splitext "..a.txt" = ("..a", ".txt") := by decide
example : splitext "noext" = ("noext", "") := by decide

/-- Boolean list-prefix test. -/
def isPrefixOfL (needle : List Char) : List Char → Bool :=
  fun hay =>
    match needle, hay with
    | [], _ => true
    | _ :: _, [] => false
    | a :: as, b :: bs => a == b && isPrefixOfL as bs

/-- Boolean substring (infix) test, modelling Python's `in` on strings. -/
def isInfixOfL (needle : List Char) : List Char → Bool
  | [] => needle.isEmpty
  | b :: bs => isPrefixOfL needle (b :: bs) || isInfixOfL needle bs

/-! ## Status constants of `FileRenameTool` -/

def STATUS_PENDING : String := "待处理"
def STATUS_SUCCESS : String := "成功"
def STATUS_SKIPPED : String := "已跳过"
def STATUS_UNMATCHED : String := "未匹配"
def STATUS_PREVIEW_CONFLICT : String := "预览冲突"
def STATUS_TARGET_EXISTS : String := "目标已存在"
def STATUS_ERROR_PREFIX : String := "错误: "

/-- `values[4].startswith(STATUS_ERROR_PREFIX)`. -/
def isErrorStatus (s : String) : Bool :=
  isPrefixOfL STATUS_ERROR_PREFIX.toList s.toList

/-! ## Mapping load and validation (`load_files`, lines 439-462) -/

/-- Errors of the load phase.  `duplicateKey` carries the sorted
case-insensitively duplicated key names; `duplicateTarget` carries the
(targetName, key) pairs of rows with exactly duplicated targets, sorted by
target name. -/
inductive LoadError
  | duplicateKey (keys : List String)
  | duplicateTarget (pairs : List (String × String))
deriving DecidableEq

/-- `df.dropna(subset=[name_col, filename_col])` followed by
`astype(str).str.strip()` on both columns: a row survives iff both cells
are present (non-NaN, modelled as `some`), and then both are stripped.
Rows whose cells are whitespace-only are NOT dropped; they become rows
with empty-string fields. -/
def cleanRows (rows : List (Option String × Option String)) : List (String × String) :=
  rows.filterMap fun r =>
    match r with
    | (some a, some b) => some (pyStripS a, pyStripS b)
    | _ => none

/-- `df[df[name_col].str.lower().duplicated(keep=False)][name_col]`:
the keys (original case, in row order) whose lowercased form occurs at
least twice among the rows. -/
def conflictKeys (cl : List (String × String)) : List String :=
  let lows := cl.map (fun r => lowerS r.1)
  (cl.filter (fun r => 2 ≤ lows.count (lowerS r.1))).map Prod.fst

/-- `df[df[filename_col].duplicated(keep=False)]`, presented as the
(targetName, key) pairs the error dialog lists. -/
def conflictTargets (cl : List (String × String)) : List (String × String) :=
  let ts := cl.map Prod.snd
  (cl.filter (fun r => 2 ≤ ts.count r.2)).map (fun r => (r.2, r.1))

/-- The load-and-validate phase of `load_files`: clean the rows, fail with
`duplicateKey` (reporting `sorted(...unique())` of the conflicting keys)
if any two keys coincide case-insensitively, then fail with
`duplicateTarget` (pairs sorted by target) if any two targets coincide
exactly, otherwise return the mapping (key, targetName) in row order
(`{row[name_col]: row[filename_col] for ...}`; keys are unique here). -/
def loadMapping (rows : List (Option String × Option String)) :
    Except LoadError (List (String × String)) :=
  let cl := cleanRows rows
  let dk := conflictKeys cl
  if dk.isEmpty then
    let dt := conflictTargets cl
    if dt.isEmpty then .ok cl
    else .error (.duplicateTarget (List.insertionSort (fun a b => a.1 ≤ b.1) dt))
  else .error (.duplicateKey (List.insertionSort (fun a b : String => a ≤ b) dk.dedup))

/-! ## Matcher (`load_files`, lines 466-489) -/

inductive MatchType
  | contains
  | exact
deriving DecidableEq

/-- One probe of the inner loop:
`(match_type == "包含" and name.lower() in item_name.lower()) or
 (match_type != "包含" and item_base_name.lower() == name.lower())`. -/
def matchFound (mt : MatchType) (name item : String) : Bool :=
  match mt with
  | .contains => isInfixOfL (lowerS name).toList (lowerS item).toList
  | .exact => lowerS (splitext item).1 == lowerS name

/-- Stable insertion of a key into a length-descending sorted list: the new
key (earlier in the original order) goes before keys of equal length. -/
def insertLenDesc (x : String) : List String → List String
  | [] => [x]
  | y :: ys => if x.length < y.length then y :: insertLenDesc x ys else x :: y :: ys

/-- `sorted(self.file_mapping.keys(), key=len, reverse=True)` — Python's
stable sort by descending length. -/
def sortLenDesc : List String → List String
  | [] => []
  | x :: xs => insertLenDesc x (sortLenDesc xs)

/-- `self.matched_files[name].append(item_name)` on a `defaultdict(list)`
kept in key-insertion order. -/
def addToGroup (groups : List (String × List String)) (key item : String) :
    List (String × List String) :=
  match groups with
  | [] => [(key, [item])]
  | (k, items) :: rest =>
    if k == key then (k, items ++ [item]) :: rest
    else (k, items) :: addToGroup rest key item

/-- The matching loop of `load_files`: items in listing order, each tried
against the sorted key list, first match wins, matched items are recorded
in `processed` and appended to the key's group, unmatched items are
appended (in order) to the unmatched list. -/
def matchLoop (mt : MatchType) (sortedNames : List String) :
    List String → List String → List (String × List String) → List String →
    List (String × List String) × List String
  | [], _, groups, unmatched => (groups, unmatched)
  | item :: rest, processed, groups, unmatched =>
    if processed.contains item then
      matchLoop mt sortedNames rest processed groups unmatched
    else
      match sortedNames.find? (fun name => matchFound mt name item) with
      | some name =>
        matchLoop mt sortedNames rest (item :: processed) (addToGroup groups name item) unmatched
      | none => matchLoop mt sortedNames rest processed groups (unmatched ++ [item])

/-- The matcher: sort the mapping keys by descending length (stable) and
run the matching loop over the source listing. -/
def matchItems (mt : MatchType) (mappingKeys : List String) (sourceItems : List String) :
    List (String × List String) × List String :=
  matchLoop mt (sortLenDesc mappingKeys) sourceItems [] [] []

example :
    matchItems .contains ["An", "Anna"] ["Anna_report.pdf", "Andy.txt", "Bob.txt"] =
      ([("Anna", ["Anna_report.pdf"]), ("An", ["Andy.txt"])], ["Bob.txt"]) := by decide

/-! ## Preview resolution (`generate_preview`, lines 506-563) -/

inductive RenameMode
  | file
  | folder
deriving DecidableEq

inductive DupPolicy
  | suffix
  | skip
deriving DecidableEq

/-- One row of the preview/result table (one Tk tree row). -/
structure PRecord where
  index : Nat
  matchedKey : String
  sourceName : String
  targetName : String
  status : String
deriving DecidableEq, Repr

/-- Preview configuration: rename mode, compress option, duplicate-handling
policy, and the target-directory existence check
(`os.path.exists(os.path.join(target_folder_path, n))`) as an external
collaborator. -/
structure PrevCfg where
  mode : RenameMode
  compress : Bool
  compressFormat : String
  dupPolicy : DupPolicy
  existsInTarget : String → Bool

/-- Lines 521-530: sanitize the mapped target
(`file_mapping.get(name, "未命名")`), then pick the base target name by
mode/compression. -/
def baseTargetName (cfg : PrevCfg) (mapping : List (String × String)) (name : String) : String :=
  let fromCsv := sanitizeFilename (((mapping.find? (fun r => r.1 == name)).map Prod.snd).getD fallbackName)
  let baseOps := (splitext fromCsv).1
  if cfg.mode == .file then fromCsv
  else if cfg.compress then baseOps ++ "." ++ cfg.compressFormat
  else fromCsv

/-- Line 543-544: `f"{target_main}_{i + 1}{target_ext}"` for the 0-based
position `i`. -/
def suffixedName (base : String) (i : Nat) : String :=
  let (m, e) := splitext base
  m ++ "_" ++ toString (i + 1) ++ e

/-- Lines 539-558, one matched group's inner loop (the non-skip path):
compute the candidate, re-sanitize its basename, resolve the outcome
(preview-conflict against the reserved set, then target-exists, then
pending) and reserve pending names. -/
def previewItems (cfg : PrevCfg) (base key : String) (many : Bool) :
    List String → Nat → Nat → List String → List PRecord × List String × Nat
  | [], _, idx, reserved => ([], reserved, idx)
  | item :: rest, i, idx, reserved =>
    let final0 := if many && cfg.dupPolicy == .suffix then suffixedName base i else base
    let final := sanitizeFilename (pyBasename final0)
    let status :=
      if (reserved.map lowerS).contains (lowerS final) then STATUS_PREVIEW_CONFLICT
      else if cfg.existsInTarget final then STATUS_TARGET_EXISTS
      else STATUS_PENDING
    let reserved' := if status == STATUS_PENDING then reserved ++ [final] else reserved
    let out := previewItems cfg base key many rest (i + 1) (idx + 1) reserved'
    (⟨idx, key, item, final, status⟩ :: out.1, out.2.1, out.2.2)

/-- Lines 520-558, one matched group: the skip branch (group size > 1 and
policy Skip) emits one Skipped record per entry with the shared base
target and touches no reserved name; otherwise the inner loop runs. -/
def previewGroup (cfg : PrevCfg) (mapping : List (String × String))
    (reserved : List String) (idx : Nat) (key : String) (items : List String) :
    List PRecord × List String × Nat :=
  let base := baseTargetName cfg mapping key
  if items.length > 1 && cfg.dupPolicy == .skip then
    ((items.enum.map fun p => ⟨idx + p.1, key, p.2, base, STATUS_SKIPPED⟩),
      reserved, idx + items.length)
  else
    previewItems cfg base key (decide (items.length > 1)) items 0 idx reserved

/-- The group loop of `generate_preview`, threading the reserved-name set
and the 1-based row index. -/
def generatePreviewAux (cfg : PrevCfg) (mapping : List (String × String)) :
    List (String × List String) → List String → Nat → List PRecord × List String
  | [], reserved, _ => ([], reserved)
  | (key, items) :: rest, reserved, idx =>
    let g := previewGroup cfg mapping reserved idx key items
    let out := generatePreviewAux cfg mapping rest g.2.1 g.2.2
    (g.1 ++ out.1, out.2)

/-- `generate_preview`: process every matched group starting from an empty
reserved set and index 1, then append the rows of the previous pass whose
status is Unmatched (`items_to_keep`), unchanged.  Also returns the final
reserved-name set (`target_filenames_in_preview`). -/
def generatePreview (cfg : PrevCfg) (mapping : List (String × String))
    (groups : List (String × List String)) (prevRows : List PRecord) :
    List PRecord × List String :=
  let out := generatePreviewAux cfg mapping groups [] 1
  (out.1 ++ prevRows.filter (fun r => r.status == STATUS_UNMATCHED), out.2)

/-! ## Executor (`execute_rename`, lines 565-662) -/

/-- State threaded through the execution loop: the rewritten records, the
target-directory listing (a successful copy/compress materializes the
destination name), and the three counters. -/
structure ExecResult where
  records : List PRecord
  targetDir : List String
  successCount : Nat
  skipCount : Nat
  errorCount : Nat
deriving DecidableEq, Repr

def errFileExists : String := STATUS_ERROR_PREFIX ++ "FileExistsError: 目标已存在"
def errFileNotFound : String := STATUS_ERROR_PREFIX ++ "FileNotFoundError: 源不存在"

/-- Rewrite a record's status cell (`values[4] = ...`). -/
def setStatus (r : PRecord) (s : String) : PRecord :=
  { r with status := s }

/-- Lines 597-655, one iteration: non-Pending records pass through
untouched and are counted as skipped only when they are neither Success
nor an Error; Pending records re-verify destination-absent then
source-present (each failure becomes that record's Error outcome) and on
success the destination name is materialized.  The copy/compress
collaborator itself is modelled as reliable; its other failure modes are
external I/O. -/
def execStep (srcDir : List String) (acc : ExecResult) (r : PRecord) : ExecResult :=
  if r.status != STATUS_PENDING then
    if r.status != STATUS_SUCCESS && !isErrorStatus r.status then
      { acc with records := acc.records ++ [r], skipCount := acc.skipCount + 1 }
    else
      { acc with records := acc.records ++ [r] }
  else if acc.targetDir.contains r.targetName then
    { acc with
        records := acc.records ++ [setStatus r errFileExists],
        errorCount := acc.errorCount + 1 }
  else if !srcDir.contains r.sourceName then
    { acc with
        records := acc.records ++ [setStatus r errFileNotFound],
        errorCount := acc.errorCount + 1 }
  else
    { acc with
        records := acc.records ++ [setStatus r STATUS_SUCCESS],
        targetDir := acc.targetDir ++ [r.targetName],
        successCount := acc.successCount + 1 }

/-- `execute_rename`: if no record is Pending the run is rejected up front
(warning dialog, no summary, nothing touched) — modelled as `none`;
otherwise every record is processed in order by `execStep`. -/
def executeRename (srcDir targetDir : List String) (records : List PRecord) :
    Option ExecResult :=
  if records.all (fun r => r.status != STATUS_PENDING) then none
  else some (records.foldl (execStep srcDir) ⟨[], targetDir, 0, 0, 0⟩)

/-! ## Derived predicates used in theorem statements -/

/-- Target names of the Pending records of a record list. -/
def pendingTargets (rs : List PRecord) : List String :=
  (rs.filter (fun r => r.status == STATUS_PENDING)).map (fun r => r.targetName)

/-- Case-insensitive membership of a name in a name list. -/
def conflictsCI (names : List String) (t : String) : Bool :=
  (names.map lowerS).contains (lowerS t)

/-- The outcome triage of the preview phase, against an explicit name list:
preview-conflict beats target-exists beats pending. -/
def triage (cfg : PrevCfg) (names : List String) (t : String) : String :=
  if conflictsCI names t then STATUS_PREVIEW_CONFLICT
  else if cfg.existsInTarget t then STATUS_TARGET_EXISTS
  else STATUS_PENDING

/-- An everywhere-empty target directory. -/
def noTarget : String → Bool := fun _ => false

example :
    generatePreview ⟨.file, false, "zip", .suffix, noTarget⟩ [("Bob", "Bob.pdf")]
      [("Bob", ["bob1.pdf", "bob2.pdf"])] [] =
    ([⟨1, "Bob", "bob1.pdf", "Bob_1.pdf", STATUS_PENDING⟩,
      ⟨2, "Bob", "bob2.pdf", "Bob_2.pdf", STATUS_PENDING⟩],
      ["Bob_1.pdf", "Bob_2.pdf"]) := by decide

example :
    generatePreview ⟨.file, false, "zip", .skip, noTarget⟩ [("Bob", "Bob.pdf")]
      [("Bob", ["bob1.pdf", "bob2.pdf"])] [] =
    ([⟨1, "Bob", "bob1.pdf", "Bob.pdf", STATUS_SKIPPED⟩,
      ⟨2, "Bob", "bob2.pdf", "Bob.pdf", STATUS_SKIPPED⟩], []) := by decide

example :
    generatePreview ⟨.file, false, "zip", .suffix, noTarget⟩
      [("A", "Report.pdf"), ("B", "report.PDF")]
      [("A", ["a1"]), ("B", ["b1"])] [] =
    ([⟨1, "A", "a1", "Report.pdf", STATUS_PENDING⟩,
      ⟨2, "B", "b1", "report.PDF", STATUS_PREVIEW_CONFLICT⟩],
      ["Report.pdf"]) := by decide

example :
    executeRename ["a.txt"] [] [⟨1, "k", "a.txt", "A.txt", STATUS_PENDING⟩,
      ⟨2, "k2", "b", "B", STATUS_SUCCESS⟩] =
    some ⟨[⟨1, "k", "a.txt", "A.txt", STATUS_SUCCESS⟩,
      ⟨2, "k2", "b", "B", STATUS_SUCCESS⟩], ["A.txt"], 1, 0, 0⟩ := by decide

example :
    executeRename ["s"] [] [⟨1, "k", "s", "t", STATUS_SUCCESS⟩] = none := by decide

/-! ## Invariants of the preview inner loop -/

theorem pendingTargets_append (l1 l2 : List PRecord) :
    pendingTargets (l1 ++ l2) = pendingTargets l1 ++ pendingTargets l2 := by
  simp [pendingTargets, List.filter_append]

/-- Full functional invariant of the inner preview loop: the returned
reserved set extends the incoming one by exactly the pending targets of
the emitted records; the emitted records are in bijection with the items;
and the `k`-th emitted record carries the (re-sanitized, possibly
suffixed) candidate name, the group's key, the running index, and a status
that is the triage of its candidate against the incoming reserved set
extended by the pending targets of the earlier emitted records. -/
theorem previewItems_spec (cfg : PrevCfg) (base key : String) (many : Bool) :
    ∀ (items : List String) (i idx : Nat) (reserved : List String),
      (previewItems cfg base key many items i idx reserved).2.1
        = reserved ++ pendingTargets (previewItems cfg base key many items i idx reserved).1 ∧
      (previewItems cfg base key many items i idx reserved).1.length = items.length ∧
      ∀ k r, (previewItems cfg base key many items i idx reserved).1.get? k = some r →
        r.status = triage cfg
            (reserved ++ pendingTargets ((previewItems cfg base key many items i idx reserved).1.take k))
            r.targetName ∧
        r.targetName = sanitizeFilename (pyBasename
            (if many && cfg.dupPolicy == .suffix then suffixedName base (i + k) else base)) ∧
        r.matchedKey = key ∧ r.index = idx + k ∧ items.get? k = some r.sourceName := by
  intro items
  induction items with
  | nil =>
    intro i idx reserved
    refine ⟨by simp [previewItems, pendingTargets], by simp [previewItems], ?_⟩
    intro k r h
    simp [previewItems] at h
  | cons item rest ih =>
    intro i idx reserved
    simp only [previewItems]
    set final := sanitizeFilename (pyBasename
      (if many && cfg.dupPolicy == .suffix then suffixedName base i else base)) with hfinal
    set status := (if (reserved.map lowerS).contains (lowerS final) then STATUS_PREVIEW_CONFLICT
      else if cfg.existsInTarget final then STATUS_TARGET_EXISTS
      else STATUS_PENDING) with hstatus
    set reserved' := (if status == STATUS_PENDING then reserved ++ [final] else reserved) with hres
    obtain ⟨ih1, ih2, ih3⟩ := ih (i + 1) (idx + 1) reserved'
    have hshift : reserved ++ (if status == STATUS_PENDING then [final] else []) = reserved' := by
      rw [hres]
      cases h : (status == STATUS_PENDING) <;> simp
    have hpt : ∀ tail, pendingTargets (⟨idx, key, item, final, status⟩ :: tail)
        = (if status == STATUS_PENDING then [final] else []) ++ pendingTargets tail := by
      intro tail
      cases h : (status == STATUS_PENDING) <;>
        simp [pendingTargets, List.filter_cons, h]
    refine ⟨?_, by simpa using ih2, ?_⟩
    · rw [ih1, hpt, ← List.append_assoc, hshift]
    · intro k r hk
      match k with
      | 0 =>
        simp only [List.get?_cons_zero, Option.some.injEq] at hk
        subst hk
        refine ⟨?_, by simpa using hfinal, rfl, rfl, rfl⟩
        simp [triage, conflictsCI, pendingTargets, hstatus]
      | k + 1 =>
        simp only [List.get?_cons_succ] at hk
        obtain ⟨h1, h2, h3, h4, h5⟩ := ih3 k r hk
        refine ⟨?_, ?_, h3, ?_, by simpa using h5⟩
        · rw [h1, List.take_succ_cons, hpt, ← List.append_assoc, hshift]
        · rw [h2]
          ring_nf
        · rw [h4]
          ring_nf

/-- Group-level invariant: the reserved set grows by exactly the pending
targets of the emitted records, the group emits one record per item, and
every record that is not Skipped has the triage status against the
incoming reserved set extended by the earlier pending targets. -/
theorem previewGroup_spec (cfg : PrevCfg) (mapping : List (String × String))
    (reserved : List String) (idx : Nat) (key : String) (items : List String) :
    (previewGroup cfg mapping reserved idx key items).2.1
      = reserved ++ pendingTargets (previewGroup cfg mapping reserved idx key items).1 ∧
    (previewGroup cfg mapping reserved idx key items).1.length = items.length ∧
    ∀ k r, (previewGroup cfg mapping reserved idx key items).1.get? k = some r →
      r.status ≠ STATUS_SKIPPED →
      r.status = triage cfg
        (reserved ++ pendingTargets ((previewGroup cfg mapping reserved idx key items).1.take k))
        r.targetName := by
  unfold previewGroup
  by_cases hguard : (items.length > 1 && cfg.dupPolicy == DupPolicy.skip) = true
  · rw [if_pos hguard]
    refine ⟨?_, by simp, ?_⟩
    · suffices h : pendingTargets (items.enum.map fun p =>
          (⟨idx + p.1, key, p.2, baseTargetName cfg mapping key, STATUS_SKIPPED⟩ : PRecord)) = [] by
        simp [h]
      unfold pendingTargets
      rw [List.filter_eq_nil.mpr]
      · rfl
      · intro r hr
        obtain ⟨p, _, hp⟩ := List.mem_map.mp hr
        rw [← hp]
        show ¬(STATUS_SKIPPED == STATUS_PENDING) = true
        decide
    · intro k r hk hskip
      exfalso
      apply hskip
      have hmem : r ∈ items.enum.map fun p =>
          (⟨idx + p.1, key, p.2, baseTargetName cfg mapping key, STATUS_SKIPPED⟩ : PRecord) :=
        List.get?_mem hk
      obtain ⟨p, _, hp⟩ := List.mem_map.mp hmem
      rw [← hp]
  · rw [if_neg hguard]
    obtain ⟨h1, h2, h3⟩ := previewItems_spec cfg (baseTargetName cfg mapping key) key
      (decide (items.length > 1)) items 0 idx reserved
    exact ⟨h1, h2, fun k r hk _ => (h3 k r hk).1⟩

/-- Invariant of the group loop of `generate_preview`. -/
theorem generatePreviewAux_spec (cfg : PrevCfg) (mapping : List (String × String)) :
    ∀ (groups : List (String × List String)) (reserved : List String) (idx : Nat),
      (generatePreviewAux cfg mapping groups reserved idx).2
        = reserved ++ pendingTargets (generatePreviewAux cfg mapping groups reserved idx).1 ∧
      ∀ k r, (generatePreviewAux cfg mapping groups reserved idx).1.get? k = some r →
        r.status ≠ STATUS_SKIPPED →
        r.status = triage cfg
          (reserved ++ pendingTargets ((generatePreviewAux cfg mapping groups reserved idx).1.take k))
          r.targetName := by
  intro groups
  induction groups with
  | nil =>
    intro reserved idx
    refine ⟨by simp [generatePreviewAux, pendingTargets], ?_⟩
    intro k r h
    simp [generatePreviewAux] at h
  | cons g rest ih =>
    obtain ⟨key, items⟩ := g
    intro reserved idx
    simp only [generatePreviewAux]
    obtain ⟨g1, g2, g3⟩ := previewGroup_spec cfg mapping reserved idx key items
    set G := previewGroup cfg mapping reserved idx key items with hG
    obtain ⟨a1, a3⟩ := ih G.2.1 G.2.2
    set A := generatePreviewAux cfg mapping rest G.2.1 G.2.2 with hA
    constructor
    · rw [a1, g1, pendingTargets_append, List.append_assoc]
    · intro k r hk hskip
      by_cases hlt : k < G.1.length
      · rw [List.get?_append hlt] at hk
        have h := g3 k r hk hskip
        rw [List.take_append_eq_append_take,
          Nat.sub_eq_zero_of_le (Nat.le_of_lt hlt), List.take_zero, List.append_nil]
        exact h
      · push_neg at hlt
        rw [List.get?_append_right hlt] at hk
        have h := a3 (k - G.1.length) r hk hskip
        rw [g1, List.append_assoc] at h
        rw [List.take_append_eq_append_take, List.take_of_length_le hlt,
          pendingTargets_append]
        exact h

/-- All Unmatched rows: the carried-over part contributes no pending target. -/
theorem pendingTargets_filter_unmatched (l : List PRecord) :
    pendingTargets (l.filter fun r => r.status == STATUS_UNMATCHED) = [] := by
  unfold pendingTargets
  rw [List.filter_eq_nil.mpr]
  · rfl
  · intro r hr
    have h2 : r.status = STATUS_UNMATCHED := eq_of_beq (List.mem_filter.mp hr).2
    rw [h2]
    decide

/-- Top-level invariant of `generate_preview`: the returned reserved set is
exactly the pending targets of the returned records, and every record
whose status is neither Skipped nor Unmatched has the triage status
against the pending targets of the earlier records. -/
theorem generatePreview_spec (cfg : PrevCfg) (mapping : List (String × String))
    (groups : List (String × List String)) (prevRows : List PRecord) :
    (generatePreview cfg mapping groups prevRows).2
      = pendingTargets (generatePreview cfg mapping groups prevRows).1 ∧
    ∀ k r, (generatePreview cfg mapping groups prevRows).1.get? k = some r →
      r.status ≠ STATUS_SKIPPED → r.status ≠ STATUS_UNMATCHED →
      r.status = triage cfg
        (pendingTargets ((generatePreview cfg mapping groups prevRows).1.take k))
        r.targetName := by
  simp only [generatePreview]
  obtain ⟨a1, a3⟩ := generatePreviewAux_spec cfg mapping groups [] 1
  set A := generatePreviewAux cfg mapping groups [] 1 with hA
  constructor
  · rw [pendingTargets_append, pendingTargets_filter_unmatched, List.append_nil, a1,
      List.nil_append]
  · intro k r hk hskip hunm
    by_cases hlt : k < A.1.length
    · rw [List.get?_append hlt] at hk
      have := a3 k r hk hskip
      rw [List.nil_append] at this
      rwa [List.take_append_eq_append_take,
        Nat.sub_eq_zero_of_le (Nat.le_of_lt hlt), List.take_zero, List.append_nil]
    · exfalso
      push_neg at hlt
      rw [List.get?_append_right hlt] at hk
      have hmem : r ∈ prevRows.filter (fun r => r.status == STATUS_UNMATCHED) :=
        List.get?_mem hk
      have := (List.mem_filter.mp hmem).2
      exact hunm (eq_of_beq this)

/-! ## Claim theorems: matcher and preview -/

/-- A file-mode, no-compress, suffix-policy configuration over an empty
target directory, used for concrete preview scenarios. -/
def previewCfgSuffix : PrevCfg :=
  ⟨RenameMode.file, false, "zip", DupPolicy.suffix, noTarget⟩

/-- C1: with keys ["An", "Anna"] under Contains matching and the listing
["Anna_report.pdf", "Andy.txt", "Bob.txt"], the matcher (longest key
first, stable ties, case-insensitive substring, first match wins) assigns
"Anna_report.pdf" to the "Anna" group, "Andy.txt" to the "An" group, and
leaves "Bob.txt" unmatched. -/
theorem c1_matcher_longest_key_first :
    matchItems MatchType.contains ["An", "Anna"] ["Anna_report.pdf", "Andy.txt", "Bob.txt"] =
      ([("Anna", ["Anna_report.pdf"]), ("An", ["Andy.txt"])], ["Bob.txt"]) := by
  decide

/-- C2: in every preview generation, every record that is not Skipped (and
not a carried-over Unmatched row) has its outcome resolved in triage
order: PreviewConflict if its candidate name equals, case-insensitively,
the target of an earlier record of the run that was resolved Pending (the
names reserved so far); otherwise TargetExists if the target directory
already holds the candidate; otherwise Pending (and its name is what the
later records are checked against, per the take-k formulation). -/
theorem c2_preview_triage_order (cfg : PrevCfg) (mapping : List (String × String))
    (groups : List (String × List String)) (prevRows : List PRecord)
    (k : Nat) (r : PRecord)
    (hget : (generatePreview cfg mapping groups prevRows).1.get? k = some r)
    (hskip : r.status ≠ STATUS_SKIPPED) (hunm : r.status ≠ STATUS_UNMATCHED) :
    r.status = triage cfg
      (pendingTargets ((generatePreview cfg mapping groups prevRows).1.take k)) r.targetName :=
  (generatePreview_spec cfg mapping groups prevRows).2 k r hget hskip hunm

theorem c2_preview_triage_order_witness :
    (⟨2, "B", "b1", "report.PDF", STATUS_PREVIEW_CONFLICT⟩ : PRecord).status
      = triage previewCfgSuffix
          (pendingTargets ((generatePreview previewCfgSuffix
            [("A", "Report.pdf"), ("B", "report.PDF")] [("A", ["a1"]), ("B", ["b1"])] []).1.take 1))
          (⟨2, "B", "b1", "report.PDF", STATUS_PREVIEW_CONFLICT⟩ : PRecord).targetName :=
  c2_preview_triage_order previewCfgSuffix [("A", "Report.pdf"), ("B", "report.PDF")]
    [("A", ["a1"]), ("B", ["b1"])] [] 1 ⟨2, "B", "b1", "report.PDF", STATUS_PREVIEW_CONFLICT⟩
    (by decide) (by decide) (by decide)

/-- C10: the in-run reserved-name set of a preview run holds exactly the
target names of the records resolved Pending, and every PreviewConflict
record conflicts case-insensitively with the pending targets among the
earlier records — never merely with a Skipped, PreviewConflict or
TargetExists one. -/
theorem c10_reserved_only_pending (cfg : PrevCfg) (mapping : List (String × String))
    (groups : List (String × List String)) (prevRows : List PRecord) :
    (generatePreview cfg mapping groups prevRows).2
      = pendingTargets (generatePreview cfg mapping groups prevRows).1 ∧
    ∀ k r, (generatePreview cfg mapping groups prevRows).1.get? k = some r →
      r.status = STATUS_PREVIEW_CONFLICT →
      conflictsCI (pendingTargets ((generatePreview cfg mapping groups prevRows).1.take k))
        r.targetName = true := by
  obtain ⟨h1, h2⟩ := generatePreview_spec cfg mapping groups prevRows
  refine ⟨h1, ?_⟩
  intro k r hget hpc
  have hskip : r.status ≠ STATUS_SKIPPED := by rw [hpc]; decide
  have hunm : r.status ≠ STATUS_UNMATCHED := by rw [hpc]; decide
  have h := h2 k r hget hskip hunm
  rw [hpc] at h
  unfold triage at h
  by_cases hc : conflictsCI
      (pendingTargets ((generatePreview cfg mapping groups prevRows).1.take k)) r.targetName = true
  · exact hc
  · exfalso
    rw [if_neg hc] at h
    by_cases hex : cfg.existsInTarget r.targetName = true
    · rw [if_pos hex] at h
      exact absurd h (by decide)
    · rw [if_neg hex] at h
      exact absurd h (by decide)

theorem c10_reserved_only_pending_witness :
    (generatePreview previewCfgSuffix [("A", "Report.pdf"), ("B", "report.PDF")]
        [("A", ["a1"]), ("B", ["b1"])] []).2
      = pendingTargets (generatePreview previewCfgSuffix
          [("A", "Report.pdf"), ("B", "report.PDF")] [("A", ["a1"]), ("B", ["b1"])] []).1 ∧
    conflictsCI (pendingTargets ((generatePreview previewCfgSuffix
        [("A", "Report.pdf"), ("B", "report.PDF")] [("A", ["a1"]), ("B", ["b1"])] []).1.take 1))
      "report.PDF" = true :=
  ⟨(c10_reserved_only_pending previewCfgSuffix [("A", "Report.pdf"), ("B", "report.PDF")]
      [("A", ["a1"]), ("B", ["b1"])] []).1,
    (c10_reserved_only_pending previewCfgSuffix [("A", "Report.pdf"), ("B", "report.PDF")]
      [("A", ["a1"]), ("B", ["b1"])] []).2 1 ⟨2, "B", "b1", "report.PDF", STATUS_PREVIEW_CONFLICT⟩
      (by decide) (by decide)⟩

/-- C3: under the Suffix duplicate policy, when a key's group has more than
one entry the `k`-th record (0-based) receives the candidate
`{base-without-ext}_{k+1}{ext}` (re-sanitized, which leaves it unchanged in
the concrete scenario); in particular key "Bob" with target "Bob.pdf" and
entries ["bob1.pdf", "bob2.pdf"] previews to "Bob_1.pdf" and "Bob_2.pdf",
both Pending, with no conflict. -/
theorem c3_suffix_policy (cfg : PrevCfg) (mapping : List (String × String))
    (reserved : List String) (idx : Nat) (key : String) (items : List String)
    (hpol : cfg.dupPolicy = DupPolicy.suffix) (hmany : 1 < items.length)
    (k : Nat) (r : PRecord)
    (hget : (previewGroup cfg mapping reserved idx key items).1.get? k = some r) :
    r.targetName = sanitizeFilename (pyBasename
      (suffixedName (baseTargetName cfg mapping key) k)) ∧
    generatePreview previewCfgSuffix [("Bob", "Bob.pdf")] [("Bob", ["bob1.pdf", "bob2.pdf"])] [] =
      ([⟨1, "Bob", "bob1.pdf", "Bob_1.pdf", STATUS_PENDING⟩,
        ⟨2, "Bob", "bob2.pdf", "Bob_2.pdf", STATUS_PENDING⟩], ["Bob_1.pdf", "Bob_2.pdf"]) := by
  refine ⟨?_, by decide⟩
  have hguard : ¬(items.length > 1 && cfg.dupPolicy == DupPolicy.skip) = true := by
    rw [hpol]
    simp
  unfold previewGroup at hget
  rw [if_neg hguard] at hget
  obtain ⟨-, -, h3⟩ := previewItems_spec cfg (baseTargetName cfg mapping key) key
    (decide (items.length > 1)) items 0 idx reserved
  have h := (h3 k r hget).2.1
  have hcond : (decide (items.length > 1) && cfg.dupPolicy == DupPolicy.suffix) = true := by
    rw [hpol]
    simp [hmany]
  rw [hcond] at h
  simpa using h

theorem c3_suffix_policy_witness :
    (⟨1, "Bob", "bob1.pdf", "Bob_1.pdf", STATUS_PENDING⟩ : PRecord).targetName
      = sanitizeFilename (pyBasename
          (suffixedName (baseTargetName previewCfgSuffix [("Bob", "Bob.pdf")] "Bob") 0)) ∧
    generatePreview previewCfgSuffix [("Bob", "Bob.pdf")] [("Bob", ["bob1.pdf", "bob2.pdf"])] [] =
      ([⟨1, "Bob", "bob1.pdf", "Bob_1.pdf", STATUS_PENDING⟩,
        ⟨2, "Bob", "bob2.pdf", "Bob_2.pdf", STATUS_PENDING⟩], ["Bob_1.pdf", "Bob_2.pdf"]) :=
  c3_suffix_policy previewCfgSuffix [("Bob", "Bob.pdf")] [] 1 "Bob" ["bob1.pdf", "bob2.pdf"]
    rfl (by decide) 0 ⟨1, "Bob", "bob1.pdf", "Bob_1.pdf", STATUS_PENDING⟩ (by decide)

/-! ## Executor step characterization -/

theorem get?_append_length {α : Type} (A : List α) (b : α) (rs : List α) :
    (A ++ b :: rs).get? A.length = some b := by
  rw [List.get?_append_right (Nat.le_refl _)]
  simp

theorem execStep_nonpending (srcDir : List String) (acc : ExecResult) (r : PRecord)
    (hp : (r.status != STATUS_PENDING) = true) :
    execStep srcDir acc r =
      { acc with
          records := acc.records ++ [r],
          skipCount := acc.skipCount +
            (if (r.status != STATUS_SUCCESS && !isErrorStatus r.status) then 1 else 0) } := by
  unfold execStep
  rw [if_pos hp]
  by_cases hb : (r.status != STATUS_SUCCESS && !isErrorStatus r.status) = true
  · rw [if_pos hb, if_pos hb]
  · rw [if_neg hb, if_neg hb]
    simp

theorem execStep_pending_dst (srcDir : List String) (acc : ExecResult) (r : PRecord)
    (hp : r.status = STATUS_PENDING) (hd : acc.targetDir.contains r.targetName = true) :
    execStep srcDir acc r =
      { acc with
          records := acc.records ++ [setStatus r errFileExists],
          errorCount := acc.errorCount + 1 } := by
  unfold execStep
  rw [if_neg (by simp [hp]), if_pos hd]

theorem execStep_pending_nosrc (srcDir : List String) (acc : ExecResult) (r : PRecord)
    (hp : r.status = STATUS_PENDING) (hd : acc.targetDir.contains r.targetName = false)
    (hs : srcDir.contains r.sourceName = false) :
    execStep srcDir acc r =
      { acc with
          records := acc.records ++ [setStatus r errFileNotFound],
          errorCount := acc.errorCount + 1 } := by
  unfold execStep
  rw [if_neg (by simp [hp]), if_neg (by rw [hd]; simp), if_pos (by rw [hs]; rfl)]

theorem execStep_pending_success (srcDir : List String) (acc : ExecResult) (r : PRecord)
    (hp : r.status = STATUS_PENDING) (hd : acc.targetDir.contains r.targetName = false)
    (hs : srcDir.contains r.sourceName = true) :
    execStep srcDir acc r =
      { acc with
          records := acc.records ++ [setStatus r STATUS_SUCCESS],
          targetDir := acc.targetDir ++ [r.targetName],
          successCount := acc.successCount + 1 } := by
  unfold execStep
  rw [if_neg (by simp [hp]), if_neg (by rw [hd]; simp), if_neg (by rw [hs]; simp)]

/-- The records that `execute_rename` counts as skipped: not Pending and
neither Success nor an Error. -/
def skipCounted (r : PRecord) : Bool :=
  r.status != STATUS_PENDING && (r.status != STATUS_SUCCESS && !isErrorStatus r.status)

/-- Index bookkeeping for one appended record. -/
theorem get?_shift {α : Type} (L A : List α) (x : α) (k : Nat) (v : α)
    (h : L.get? ((A ++ [x]).length + k) = some v) :
    L.get? (A.length + (k + 1)) = some v := by
  have hlen : (A ++ [x]).length = A.length + 1 := by simp
  rw [hlen] at h
  have he : A.length + (k + 1) = A.length + 1 + k := by omega
  rw [he]
  exact h

/-- Full invariant of the execution loop: records only get appended after
the incoming ones; the target directory only grows, and only by target
names of Pending input records; the skip counter adds exactly the
`skipCounted` records; non-Pending records pass through unchanged at their
position; and each Pending record is rewritten in place to Success or an
Error, with Success implying the re-verified preconditions (source
present, destination absent from the incoming directory) and a missing
source forbidding Success. -/
theorem execFold_spec (srcDir : List String) :
    ∀ (records : List PRecord) (acc : ExecResult),
      (∃ rs, (records.foldl (execStep srcDir) acc).records = acc.records ++ rs) ∧
      (∃ ts, (records.foldl (execStep srcDir) acc).targetDir = acc.targetDir ++ ts ∧
        ∀ n ∈ ts, ∃ r, r ∈ records ∧ r.status = STATUS_PENDING ∧ r.targetName = n) ∧
      ((records.foldl (execStep srcDir) acc).skipCount = acc.skipCount +
        (records.filter skipCounted).length) ∧
      (∀ k r0, records.get? k = some r0 → r0.status ≠ STATUS_PENDING →
        (records.foldl (execStep srcDir) acc).records.get? (acc.records.length + k) = some r0) ∧
      (∀ k r0, records.get? k = some r0 → r0.status = STATUS_PENDING →
        ∃ r', (records.foldl (execStep srcDir) acc).records.get? (acc.records.length + k) = some r' ∧
          (r'.status = STATUS_SUCCESS ∨ isErrorStatus r'.status = true) ∧
          r'.targetName = r0.targetName ∧ r'.sourceName = r0.sourceName ∧
          r'.index = r0.index ∧ r'.matchedKey = r0.matchedKey ∧
          (r'.status = STATUS_SUCCESS → r0.sourceName ∈ srcDir ∧ r0.targetName ∉ acc.targetDir) ∧
          (r0.sourceName ∉ srcDir → r'.status ≠ STATUS_SUCCESS)) := by
  intro records
  induction records with
  | nil =>
    intro acc
    refine ⟨⟨[], by simp⟩, ⟨[], by simp, by simp⟩, by simp, ?_, ?_⟩ <;>
      · intro k r0 hk
        simp at hk
  | cons r rest ih =>
    intro acc
    rw [List.foldl_cons]
    by_cases hp : r.status = STATUS_PENDING
    · -- Pending head: three sub-cases of the re-verification.
      by_cases hd : acc.targetDir.contains r.targetName = true
      · rw [execStep_pending_dst srcDir acc r hp hd]
        obtain ⟨⟨rs, hrs⟩, ⟨ts, hts, htsm⟩, hskip, hnp, hpd⟩ :=
          ih { acc with
                records := acc.records ++ [setStatus r errFileExists],
                errorCount := acc.errorCount + 1 }
        have hsc : skipCounted r = false := by
          unfold skipCounted
          rw [hp]
          decide
        refine ⟨⟨setStatus r errFileExists :: rs, by rw [hrs, List.append_assoc]; rfl⟩,
          ⟨ts, hts, ?_⟩, ?_, ?_, ?_⟩
        · intro n hn
          obtain ⟨r1, hr1, h2, h3⟩ := htsm n hn
          exact ⟨r1, List.mem_cons_of_mem _ hr1, h2, h3⟩
        · rw [hskip, List.filter_cons, if_neg (by rw [hsc]; simp)]
        · intro k r0 hk hnp0
          match k with
          | 0 =>
            simp only [List.get?_cons_zero, Option.some.injEq] at hk
            exact absurd (hk ▸ hp) hnp0
          | k + 1 =>
            simp only [List.get?_cons_succ] at hk
            exact get?_shift _ _ _ _ _ (hnp k r0 hk hnp0)
        · intro k r0 hk hp0
          match k with
          | 0 =>
            simp only [List.get?_cons_zero, Option.some.injEq] at hk
            subst hk
            refine ⟨setStatus r errFileExists, ?_,
              Or.inr (show isErrorStatus errFileExists = true by decide), rfl, rfl, rfl, rfl,
              ?_, fun _ => show errFileExists ≠ STATUS_SUCCESS by decide⟩
            · rw [Nat.add_zero, hrs, List.append_assoc]
              exact get?_append_length acc.records _ rs
            · intro habs
              exact absurd habs (show ¬errFileExists = STATUS_SUCCESS by decide)
          | k + 1 =>
            simp only [List.get?_cons_succ] at hk
            obtain ⟨r', h1, h2, h3, h4, h5, h6, h7, h8⟩ := hpd k r0 hk hp0
            exact ⟨r', get?_shift _ _ _ _ _ h1, h2, h3, h4, h5, h6, h7, h8⟩
      · have hd' : acc.targetDir.contains r.targetName = false := by
          cases h : acc.targetDir.contains r.targetName
          · rfl
          · exact absurd h hd
        by_cases hs : srcDir.contains r.sourceName = true
        · rw [execStep_pending_success srcDir acc r hp hd' hs]
          obtain ⟨⟨rs, hrs⟩, ⟨ts, hts, htsm⟩, hskip, hnp, hpd⟩ :=
            ih { acc with
                  records := acc.records ++ [setStatus r STATUS_SUCCESS],
                  targetDir := acc.targetDir ++ [r.targetName],
                  successCount := acc.successCount + 1 }
          have hsc : skipCounted r = false := by
            unfold skipCounted
            rw [hp]
            decide
          refine ⟨⟨setStatus r STATUS_SUCCESS :: rs, by rw [hrs, List.append_assoc]; rfl⟩,
            ⟨r.targetName :: ts, by rw [hts, List.append_assoc]; rfl, ?_⟩, ?_, ?_, ?_⟩
          · intro n hn
            rcases List.mem_cons.mp hn with h | h
            · exact ⟨r, List.mem_cons_self _ _, hp, h.symm⟩
            · obtain ⟨r1, hr1, h2, h3⟩ := htsm n h
              exact ⟨r1, List.mem_cons_of_mem _ hr1, h2, h3⟩
          · rw [hskip, List.filter_cons, if_neg (by rw [hsc]; simp)]
          · intro k r0 hk hnp0
            match k with
            | 0 =>
              simp only [List.get?_cons_zero, Option.some.injEq] at hk
              exact absurd (hk ▸ hp) hnp0
            | k + 1 =>
              simp only [List.get?_cons_succ] at hk
              exact get?_shift _ _ _ _ _ (hnp k r0 hk hnp0)
          · intro k r0 hk hp0
            match k with
            | 0 =>
              simp only [List.get?_cons_zero, Option.some.injEq] at hk
              subst hk
              have hsrc : r.sourceName ∈ srcDir := by simpa using hs
              have htgt : r.targetName ∉ acc.targetDir := by simpa using hd'
              refine ⟨setStatus r STATUS_SUCCESS, ?_, Or.inl rfl, rfl, rfl, rfl, rfl,
                fun _ => ⟨hsrc, htgt⟩, fun hns => absurd hsrc hns⟩
              rw [Nat.add_zero, hrs, List.append_assoc]
              exact get?_append_length acc.records _ rs
            | k + 1 =>
              simp only [List.get?_cons_succ] at hk
              obtain ⟨r', h1, h2, h3, h4, h5, h6, h7, h8⟩ := hpd k r0 hk hp0
              refine ⟨r', get?_shift _ _ _ _ _ h1, h2, h3, h4, h5, h6, ?_, h8⟩
              intro hsucc
              obtain ⟨ha, hb⟩ := h7 hsucc
              refine ⟨ha, fun hmem => hb ?_⟩
              show r0.targetName ∈ acc.targetDir ++ [r.targetName]
              exact List.mem_append_left _ hmem
        · have hs' : srcDir.contains r.sourceName = false := by
            cases h : srcDir.contains r.sourceName
            · rfl
            · exact absurd h hs
          rw [execStep_pending_nosrc srcDir acc r hp hd' hs']
          obtain ⟨⟨rs, hrs⟩, ⟨ts, hts, htsm⟩, hskip, hnp, hpd⟩ :=
            ih { acc with
                  records := acc.records ++ [setStatus r errFileNotFound],
                  errorCount := acc.errorCount + 1 }
          have hsc : skipCounted r = false := by
            unfold skipCounted
            rw [hp]
            decide
          refine ⟨⟨setStatus r errFileNotFound :: rs, by rw [hrs, List.append_assoc]; rfl⟩,
            ⟨ts, hts, ?_⟩, ?_, ?_, ?_⟩
          · intro n hn
            obtain ⟨r1, hr1, h2, h3⟩ := htsm n hn
            exact ⟨r1, List.mem_cons_of_mem _ hr1, h2, h3⟩
          · rw [hskip, List.filter_cons, if_neg (by rw [hsc]; simp)]
          · intro k r0 hk hnp0
            match k with
            | 0 =>
              simp only [List.get?_cons_zero, Option.some.injEq] at hk
              exact absurd (hk ▸ hp) hnp0
            | k + 1 =>
              simp only [List.get?_cons_succ] at hk
              exact get?_shift _ _ _ _ _ (hnp k r0 hk hnp0)
          · intro k r0 hk hp0
            match k with
            | 0 =>
              simp only [List.get?_cons_zero, Option.some.injEq] at hk
              subst hk
              refine ⟨setStatus r errFileNotFound, ?_,
                Or.inr (show isErrorStatus errFileNotFound = true by decide), rfl, rfl, rfl, rfl,
                ?_, fun _ => show errFileNotFound ≠ STATUS_SUCCESS by decide⟩
              · rw [Nat.add_zero, hrs, List.append_assoc]
                exact get?_append_length acc.records _ rs
              · intro habs
                exact absurd habs (show ¬errFileNotFound = STATUS_SUCCESS by decide)
            | k + 1 =>
              simp only [List.get?_cons_succ] at hk
              obtain ⟨r', h1, h2, h3, h4, h5, h6, h7, h8⟩ := hpd k r0 hk hp0
              exact ⟨r', get?_shift _ _ _ _ _ h1, h2, h3, h4, h5, h6, h7, h8⟩
    · -- Non-pending head: passes through, possibly counted as skipped.
      have hp' : (r.status != STATUS_PENDING) = true := by simp [hp]
      rw [execStep_nonpending srcDir acc r hp']
      obtain ⟨⟨rs, hrs⟩, ⟨ts, hts, htsm⟩, hskip, hnp, hpd⟩ :=
        ih { acc with
              records := acc.records ++ [r],
              skipCount := acc.skipCount +
                (if (r.status != STATUS_SUCCESS && !isErrorStatus r.status) then 1 else 0) }
      have hsc : skipCounted r = (r.status != STATUS_SUCCESS && !isErrorStatus r.status) := by
        unfold skipCounted
        rw [hp', Bool.true_and]
      refine ⟨⟨r :: rs, by rw [hrs, List.append_assoc]; rfl⟩, ⟨ts, hts, ?_⟩, ?_, ?_, ?_⟩
      · intro n hn
        obtain ⟨r1, hr1, h2, h3⟩ := htsm n hn
        exact ⟨r1, List.mem_cons_of_mem _ hr1, h2, h3⟩
      · rw [hskip]
        have hproj : ({ acc with
            records := acc.records ++ [r],
            skipCount := acc.skipCount +
              (if (r.status != STATUS_SUCCESS && !isErrorStatus r.status) then 1 else 0) }
              : ExecResult).skipCount
            = acc.skipCount +
              (if (r.status != STATUS_SUCCESS && !isErrorStatus r.status) then 1 else 0) := rfl
        rw [hproj, List.filter_cons]
        cases hb : (r.status != STATUS_SUCCESS && !isErrorStatus r.status) with
        | true =>
          rw [hb] at hsc
          simp [hsc] <;> omega
        | false =>
          rw [hb] at hsc
          simp [hsc] <;> omega
      · intro k r0 hk hnp0
        match k with
        | 0 =>
          simp only [List.get?_cons_zero, Option.some.injEq] at hk
          subst hk
          rw [Nat.add_zero, hrs, List.append_assoc]
          exact get?_append_length acc.records _ rs
        | k + 1 =>
          simp only [List.get?_cons_succ] at hk
          exact get?_shift _ _ _ _ _ (hnp k r0 hk hnp0)
      · intro k r0 hk hp0
        match k with
        | 0 =>
          simp only [List.get?_cons_zero, Option.some.injEq] at hk
          exact absurd (hk ▸ hp0) hp
        | k + 1 =>
          simp only [List.get?_cons_succ] at hk
          obtain ⟨r', h1, h2, h3, h4, h5, h6, h7, h8⟩ := hpd k r0 hk hp0
          exact ⟨r', get?_shift _ _ _ _ _ h1, h2, h3, h4, h5, h6, h7, h8⟩

/-! ## Claim theorems: executor -/

/-- C8 counterexample: the claim says every non-Pending record is counted
as "skipped", but a Success record (here the second one) is left untouched
and NOT counted — the run summary reports 0 skipped. -/
theorem c8_success_not_counted_counterexample :
    (executeRename ["a.txt"] [] [⟨1, "k", "a.txt", "A.txt", STATUS_PENDING⟩,
        ⟨2, "k2", "b", "B", STATUS_SUCCESS⟩]).map (fun res => res.skipCount) = some 0 ∧
    (⟨2, "k2", "b", "B", STATUS_SUCCESS⟩ : PRecord).status ≠ STATUS_PENDING := by
  constructor
  · decide
  · decide

/-- C8 (amended): when an execute run proceeds, a filesystem action (a new
name in the target directory) happens only for Pending records; each
Pending record is re-verified at execution time — Success requires the
source present and the destination absent, a missing source forbids
Success, and a failed check turns the record into an Error; every
non-Pending record passes through untouched at its position; and the
summary counts as "skipped" exactly the non-Pending records that are
neither Success nor an Error (Success and Error records are not counted). -/
theorem c8_executor_pending_only (srcDir targetDir : List String) (records : List PRecord)
    (res : ExecResult) (hrun : executeRename srcDir targetDir records = some res) :
    (∀ k r0, records.get? k = some r0 → r0.status ≠ STATUS_PENDING →
      res.records.get? k = some r0) ∧
    res.skipCount = (records.filter skipCounted).length ∧
    (∀ n ∈ res.targetDir, n ∈ targetDir ∨
      ∃ r, r ∈ records ∧ r.status = STATUS_PENDING ∧ r.targetName = n) ∧
    (∀ k r0, records.get? k = some r0 → r0.status = STATUS_PENDING →
      ∃ r', res.records.get? k = some r' ∧
        (r'.status = STATUS_SUCCESS ∨ isErrorStatus r'.status = true) ∧
        r'.targetName = r0.targetName ∧ r'.sourceName = r0.sourceName ∧
        (r'.status = STATUS_SUCCESS → r0.sourceName ∈ srcDir ∧ r0.targetName ∉ targetDir) ∧
        (r0.sourceName ∉ srcDir → r'.status ≠ STATUS_SUCCESS)) := by
  unfold executeRename at hrun
  by_cases hall : (records.all fun r => r.status != STATUS_PENDING) = true
  · rw [if_pos hall] at hrun
    exact absurd hrun (by simp)
  · rw [if_neg hall] at hrun
    have hres : records.foldl (execStep srcDir) ⟨[], targetDir, 0, 0, 0⟩ = res :=
      Option.some.inj hrun
    obtain ⟨⟨rs, hrs⟩, ⟨ts, hts, htsm⟩, hskip, hnp, hpd⟩ :=
      execFold_spec srcDir records ⟨[], targetDir, 0, 0, 0⟩
    rw [hres] at hrs hts hskip hnp hpd
    refine ⟨?_, by simpa using hskip, ?_, ?_⟩
    · intro k r0 hk h0
      have h := hnp k r0 hk h0
      simpa using h
    · intro n hn
      rw [hts] at hn
      rcases List.mem_append.mp hn with h | h
      · exact Or.inl h
      · exact Or.inr (htsm n h)
    · intro k r0 hk h0
      obtain ⟨r', h1, h2, h3, h4, _, _, h7, h8⟩ := hpd k r0 hk h0
      exact ⟨r', by simpa using h1, h2, h3, h4, h7, h8⟩

theorem c8_executor_pending_only_witness :
    (∀ k r0, ([⟨1, "k", "a.txt", "A.txt", STATUS_PENDING⟩,
          ⟨2, "k2", "b", "B", STATUS_SUCCESS⟩] : List PRecord).get? k = some r0 →
        r0.status ≠ STATUS_PENDING →
      (⟨[⟨1, "k", "a.txt", "A.txt", STATUS_SUCCESS⟩,
          ⟨2, "k2", "b", "B", STATUS_SUCCESS⟩], ["A.txt"], 1, 0, 0⟩ : ExecResult).records.get? k
        = some r0) ∧
    (⟨[⟨1, "k", "a.txt", "A.txt", STATUS_SUCCESS⟩,
        ⟨2, "k2", "b", "B", STATUS_SUCCESS⟩], ["A.txt"], 1, 0, 0⟩ : ExecResult).skipCount
      = (([⟨1, "k", "a.txt", "A.txt", STATUS_PENDING⟩,
          ⟨2, "k2", "b", "B", STATUS_SUCCESS⟩] : List PRecord).filter skipCounted).length ∧
    (∀ n ∈ (⟨[⟨1, "k", "a.txt", "A.txt", STATUS_SUCCESS⟩,
        ⟨2, "k2", "b", "B", STATUS_SUCCESS⟩], ["A.txt"], 1, 0, 0⟩ : ExecResult).targetDir,
      n ∈ ([] : List String) ∨
      ∃ r, r ∈ ([⟨1, "k", "a.txt", "A.txt", STATUS_PENDING⟩,
          ⟨2, "k2", "b", "B", STATUS_SUCCESS⟩] : List PRecord) ∧
        r.status = STATUS_PENDING ∧ r.targetName = n) ∧
    (∀ k r0, ([⟨1, "k", "a.txt", "A.txt", STATUS_PENDING⟩,
          ⟨2, "k2", "b", "B", STATUS_SUCCESS⟩] : List PRecord).get? k = some r0 →
        r0.status = STATUS_PENDING →
      ∃ r', (⟨[⟨1, "k", "a.txt", "A.txt", STATUS_SUCCESS⟩,
          ⟨2, "k2", "b", "B", STATUS_SUCCESS⟩], ["A.txt"], 1, 0, 0⟩ : ExecResult).records.get? k
          = some r' ∧
        (r'.status = STATUS_SUCCESS ∨ isErrorStatus r'.status = true) ∧
        r'.targetName = r0.targetName ∧ r'.sourceName = r0.sourceName ∧
        (r'.status = STATUS_SUCCESS → r0.sourceName ∈ ["a.txt"] ∧ r0.targetName ∉ ([] : List String)) ∧
        (r0.sourceName ∉ ["a.txt"] → r'.status ≠ STATUS_SUCCESS)) :=
  c8_executor_pending_only ["a.txt"] [] [⟨1, "k", "a.txt", "A.txt", STATUS_PENDING⟩,
      ⟨2, "k2", "b", "B", STATUS_SUCCESS⟩]
    ⟨[⟨1, "k", "a.txt", "A.txt", STATUS_SUCCESS⟩,
      ⟨2, "k2", "b", "B", STATUS_SUCCESS⟩], ["A.txt"], 1, 0, 0⟩ (by decide)

/-- C9 counterexample: re-running execute on a result set whose single
record is already Success yields NO summary at all — the run is rejected
up front (`none`), rather than producing the summary counts {0, 0, 0}
the claim promises. -/
theorem c9_terminal_rerun_counterexample :
    executeRename ["s"] [] [⟨1, "k", "s", "t", STATUS_SUCCESS⟩] = none := by
  decide

/-- C9 (amended): re-running execute on a result set in which every record
is terminal (Success, Skipped, or Error) is rejected before any record is
processed: there is no Pending record, so the invocation performs zero
filesystem actions, leaves every record unchanged, and produces no
summary (a warning dialog is shown instead of counts). -/
theorem c9_terminal_rerun_rejected (srcDir targetDir : List String) (records : List PRecord)
    (hterm : ∀ r ∈ records, r.status = STATUS_SUCCESS ∨ r.status = STATUS_SKIPPED ∨
      isErrorStatus r.status = true) :
    executeRename srcDir targetDir records = none := by
  unfold executeRename
  rw [if_pos]
  rw [List.all_eq_true]
  intro r hr
  rcases hterm r hr with h | h | h
  · rw [h]
    decide
  · rw [h]
    decide
  · have hne : r.status ≠ STATUS_PENDING := by
      intro he
      rw [he] at h
      exact absurd h (by decide)
    simp [hne]

theorem c9_terminal_rerun_rejected_witness :
    executeRename ["x"] ["y"] [⟨1, "k", "x", "t", STATUS_SKIPPED⟩,
      ⟨2, "k2", "x", "t2", errFileNotFound⟩] = none :=
  c9_terminal_rerun_rejected ["x"] ["y"] [⟨1, "k", "x", "t", STATUS_SKIPPED⟩,
      ⟨2, "k2", "x", "t2", errFileNotFound⟩] (by decide)

/-! ## Claim theorems: mapping load and validation -/

/-- Two distinct positions holding the same value force a count of at
least two. -/
theorem two_le_count_of_get? {α : Type} [DecidableEq α] :
    ∀ (l : List α) (i j : Nat) (v : α), i < j → l.get? i = some v → l.get? j = some v →
      2 ≤ l.count v := by
  intro l
  induction l with
  | nil =>
    intro i j v _ hi _
    simp at hi
  | cons a rest ih =>
    intro i j v hij hi hj
    match i, j with
    | 0, j + 1 =>
      simp only [List.get?_cons_zero, Option.some.injEq] at hi
      simp only [List.get?_cons_succ] at hj
      subst hi
      have hmem : a ∈ rest := List.get?_mem hj
      have h1 : 0 < rest.count a := List.count_pos_iff.mpr hmem
      rw [List.count_cons_self]
      omega
    | i + 1, j + 1 =>
      simp only [List.get?_cons_succ] at hi hj
      have h2 := ih i j v (by omega) hi hj
      calc 2 ≤ rest.count v := h2
        _ ≤ (a :: rest).count v := List.count_le_count_cons v a rest

/-- C4: any two cleaned rows whose keys coincide case-insensitively make
the load phase abort with a DuplicateKey error whose payload is sorted and
holds exactly the keys whose lowercased form occurs at least twice; no
mapping (not even a partial one) is returned, the result being an
`Except.error`. -/
theorem c4_duplicate_key_rejection (rows : List (Option String × Option String))
    (i j : Nat) (ki kj ti tj : String)
    (hij : i ≠ j)
    (hi : (cleanRows rows).get? i = some (ki, ti))
    (hj : (cleanRows rows).get? j = some (kj, tj))
    (hkey : lowerS ki = lowerS kj) :
    ∃ ks, loadMapping rows = Except.error (LoadError.duplicateKey ks) ∧
      ks.Sorted (· ≤ ·) ∧
      (∀ k, k ∈ ks ↔ ∃ t, (k, t) ∈ cleanRows rows ∧
        2 ≤ ((cleanRows rows).map (fun r => lowerS r.1)).count (lowerS k)) := by
  have hlow_i : ((cleanRows rows).map (fun r => lowerS r.1)).get? i = some (lowerS ki) := by
    rw [List.get?_map, hi]
    rfl
  have hlow_j : ((cleanRows rows).map (fun r => lowerS r.1)).get? j = some (lowerS kj) := by
    rw [List.get?_map, hj]
    rfl
  have hcnt : 2 ≤ ((cleanRows rows).map (fun r => lowerS r.1)).count (lowerS ki) := by
    rcases Nat.lt_or_ge i j with h | h
    · exact two_le_count_of_get? _ i j _ h hlow_i (by rw [hkey]; exact hlow_j)
    · have h' : j < i := Nat.lt_of_le_of_ne h (Ne.symm hij)
      exact two_le_count_of_get? _ j i _ h' (by rw [hkey]; exact hlow_j) hlow_i
  have hmem : (ki, ti) ∈ cleanRows rows := List.get?_mem hi
  have hfil : (ki, ti) ∈ (cleanRows rows).filter
      (fun r => decide (2 ≤ ((cleanRows rows).map (fun r => lowerS r.1)).count (lowerS r.1))) := by
    rw [List.mem_filter]
    exact ⟨hmem, by simpa using hcnt⟩
  have hck : ki ∈ conflictKeys (cleanRows rows) := by
    unfold conflictKeys
    exact List.mem_map_of_mem Prod.fst hfil
  have hne : (conflictKeys (cleanRows rows)).isEmpty = false := by
    cases he : (conflictKeys (cleanRows rows)).isEmpty
    · rfl
    · rw [List.isEmpty_iff] at he
      rw [he] at hck
      simp at hck
  refine ⟨List.insertionSort (fun a b : String => a ≤ b) (conflictKeys (cleanRows rows)).dedup,
    ?_, List.sorted_insertionSort _ _, ?_⟩
  · unfold loadMapping
    rw [if_neg (by rw [hne]; simp)]
  · intro k
    constructor
    · intro hk
      have hk1 : k ∈ (conflictKeys (cleanRows rows)).dedup :=
        (List.perm_insertionSort _ _).mem_iff.mp hk
      have hk2 : k ∈ conflictKeys (cleanRows rows) := List.mem_dedup.mp hk1
      unfold conflictKeys at hk2
      obtain ⟨r, hr, hrk⟩ := List.mem_map.mp hk2
      obtain ⟨hrmem, hrcnt⟩ := List.mem_filter.mp hr
      obtain ⟨r1, r2⟩ := r
      subst hrk
      exact ⟨r2, hrmem, by simpa using hrcnt⟩
    · intro ⟨t, htmem, htcnt⟩
      apply (List.perm_insertionSort _ _).mem_iff.mpr
      apply List.mem_dedup.mpr
      unfold conflictKeys
      exact List.mem_map_of_mem Prod.fst (List.mem_filter.mpr ⟨htmem, by simpa using htcnt⟩)

theorem c4_duplicate_key_rejection_witness :
    ∃ ks, loadMapping [(some "Tom", some "a"), (some "tom ", some "b")]
        = Except.error (LoadError.duplicateKey ks) ∧
      ks.Sorted (· ≤ ·) ∧
      (∀ k, k ∈ ks ↔ ∃ t,
        (k, t) ∈ cleanRows [(some "Tom", some "a"), (some "tom ", some "b")] ∧
        2 ≤ ((cleanRows [(some "Tom", some "a"), (some "tom ", some "b")]).map
          (fun r => lowerS r.1)).count (lowerS k)) :=
  c4_duplicate_key_rejection [(some "Tom", some "a"), (some "tom ", some "b")]
    0 1 "Tom" "tom" "a" "b" (by decide) (by decide) (by decide) (by decide)

/-- C5 counterexample: a row whose key cell holds only whitespace is NOT
dropped — it survives cleaning as an empty-string key and reaches the
returned mapping, contradicting "no row with an empty key ... appears in
the resulting mapping". -/
theorem c5_empty_after_trim_kept_counterexample :
    loadMapping [(some " ", some "x")] = Except.ok [("", "x")] ∧
    ("", "x") ∈ cleanRows [(some " ", some "x")] := by
  constructor
  · rfl
  · decide

/-- C5 (amended): the mapping is built from the raw rows by first dropping
the rows with a missing (NaN) key or targetName cell and then trimming
both fields; rows whose cells trim to the empty string are kept, so every
returned mapping entry is the trimmed image of a row with both cells
present (and nothing else is dropped). -/
theorem c5_rows_cleaning (rows : List (Option String × Option String))
    (m : List (String × String)) (hok : loadMapping rows = Except.ok m) :
    m = cleanRows rows ∧
    ∀ p ∈ m, ∃ a b, (some a, some b) ∈ rows ∧ p = (pyStripS a, pyStripS b) := by
  have hm : m = cleanRows rows := by
    unfold loadMapping at hok
    by_cases h1 : (conflictKeys (cleanRows rows)).isEmpty = true
    · rw [if_pos h1] at hok
      by_cases h2 : (conflictTargets (cleanRows rows)).isEmpty = true
      · rw [if_pos h2] at hok
        cases hok
        rfl
      · rw [if_neg h2] at hok
        exact absurd hok (fun h => Except.noConfusion h)
    · rw [if_neg h1] at hok
      exact absurd hok (fun h => Except.noConfusion h)
  refine ⟨hm, ?_⟩
  intro p hp
  rw [hm] at hp
  unfold cleanRows at hp
  rw [List.mem_filterMap] at hp
  obtain ⟨r, hr, hfr⟩ := hp
  obtain ⟨ra, rb⟩ := r
  match ra, rb with
  | some a, some b =>
    refine ⟨a, b, hr, ?_⟩
    exact (Option.some.inj hfr).symm
  | some a, none => exact absurd hfr (fun h => Option.noConfusion h)
  | none, some b => exact absurd hfr (fun h => Option.noConfusion h)
  | none, none => exact absurd hfr (fun h => Option.noConfusion h)

theorem c5_rows_cleaning_witness :
    [("a", "b")] = cleanRows [(some " a ", some "b")] ∧
    ∀ p ∈ [("a", "b")], ∃ x y, (some x, some y) ∈ [(some " a ", some "b")] ∧
      p = (pyStripS x, pyStripS y) :=
  c5_rows_cleaning [(some " a ", some "b")] [("a", "b")] (by rfl)

/-! ## Character-level lemmas about the sanitizer pipeline -/

theorem mem_of_mem_dropTrailing (p : Char → Bool) :
    ∀ (l : List Char) (c : Char), c ∈ dropTrailing p l → c ∈ l := by
  intro l
  induction l with
  | nil =>
    intro c hc
    simp [dropTrailing] at hc
  | cons a rest ih =>
    intro c hc
    unfold dropTrailing at hc
    by_cases hb : ((dropTrailing p rest).isEmpty && p a) = true
    · rw [if_pos hb] at hc
      simp at hc
    · rw [if_neg hb] at hc
      rcases List.mem_cons.mp hc with h | h
      · exact h ▸ List.mem_cons_self a rest
      · exact List.mem_cons_of_mem a (ih c h)

theorem mem_of_mem_pyStrip (l : List Char) (c : Char) (hc : c ∈ pyStrip l) : c ∈ l := by
  unfold pyStrip at hc
  exact (List.dropWhile_sublist pySpace).mem (mem_of_mem_dropTrailing pySpace _ c hc)

theorem mem_collapseRunsAux (p : Char → Bool) (rep : Char) :
    ∀ (b : Bool) (l : List Char) (c : Char), c ∈ collapseRunsAux p rep b l →
      c = rep ∨ (c ∈ l ∧ p c = false) := by
  intro b l
  induction l generalizing b with
  | nil =>
    intro c hc
    cases b <;> simp [collapseRunsAux] at hc
  | cons a rest ih =>
    intro c hc
    cases b with
    | true =>
      unfold collapseRunsAux at hc
      by_cases hp : p a = true
      · rw [if_pos hp] at hc
        rcases ih true c hc with h | ⟨h1, h2⟩
        · exact Or.inl h
        · exact Or.inr ⟨List.mem_cons_of_mem a h1, h2⟩
      · rw [if_neg hp] at hc
        rcases List.mem_cons.mp hc with h | h
        · refine Or.inr ⟨h ▸ List.mem_cons_self a rest, h ▸ ?_⟩
          cases hq : p a
          · rfl
          · exact absurd hq hp
        · rcases ih false c h with h | ⟨h1, h2⟩
          · exact Or.inl h
          · exact Or.inr ⟨List.mem_cons_of_mem a h1, h2⟩
    | false =>
      unfold collapseRunsAux at hc
      by_cases hp : p a = true
      · rw [if_pos hp] at hc
        rcases List.mem_cons.mp hc with h | h
        · exact Or.inl h
        · rcases ih true c h with h | ⟨h1, h2⟩
          · exact Or.inl h
          · exact Or.inr ⟨List.mem_cons_of_mem a h1, h2⟩
      · rw [if_neg hp] at hc
        rcases List.mem_cons.mp hc with h | h
        · refine Or.inr ⟨h ▸ List.mem_cons_self a rest, h ▸ ?_⟩
          cases hq : p a
          · rfl
          · exact absurd hq hp
        · rcases ih false c h with h | ⟨h1, h2⟩
          · exact Or.inl h
          · exact Or.inr ⟨List.mem_cons_of_mem a h1, h2⟩

theorem mem_splitextL_fst (l : List Char) (c : Char) (hc : c ∈ (splitextL l).1) : c ∈ l := by
  unfold splitextL at hc
  split at hc
  · exact hc
  · split at hc
    · exact hc
    · exact List.take_subset _ _ hc

theorem mem_splitextL_snd (l : List Char) (c : Char) (hc : c ∈ (splitextL l).2) : c ∈ l := by
  unfold splitextL at hc
  split at hc
  · simp at hc
  · split at hc
    · simp at hc
    · exact List.drop_subset _ _ hc

theorem mem_truncateName (l : List Char) (c : Char) (hc : c ∈ truncateName l) : c ∈ l := by
  unfold truncateName at hc
  by_cases hlen : l.length > MAX_FILENAME_LENGTH
  · rw [if_pos hlen] at hc
    by_cases hext : (splitextL l).2.length < MAX_FILENAME_LENGTH
    · rw [if_pos hext] at hc
      rcases List.mem_append.mp hc with h | h
      · exact mem_splitextL_fst l c (List.take_subset _ _ h)
      · exact mem_splitextL_snd l c h
    · rw [if_neg hext] at hc
      exact List.take_subset _ l hc
  · rw [if_neg hlen] at hc
    exact hc

/-- Every character of the cleaned string is free of the reserved and
control classes. -/
theorem cleanName_chars (l : List Char) (c : Char) (hc : c ∈ cleanName l) :
    isReserved c = false ∧ isCtrl c = false := by
  unfold cleanName at hc
  have h1 := mem_of_mem_pyStrip _ c hc
  rcases mem_collapseRunsAux pySpace ' ' false _ c h1 with h | ⟨h2, _⟩
  · subst h
    exact ⟨by decide, by decide⟩
  · rcases mem_collapseRunsAux (· == '.') '.' false _ c h2 with h | ⟨h3, _⟩
    · subst h
      exact ⟨by decide, by decide⟩
    · unfold rmCtrl at h3
      obtain ⟨h4, hctrl⟩ := List.mem_filter.mp h3
      unfold rmReserved at h4
      obtain ⟨_, hres⟩ := List.mem_filter.mp h4
      constructor
      · cases h : isReserved c
        · rfl
        · rw [h] at hres
          exact absurd hres (by decide)
      · cases h : isCtrl c
        · rfl
        · rw [h] at hctrl
          exact absurd hctrl (by decide)

/-- The truncation phase never yields more than MAX_FILENAME_LENGTH
characters, unless the input was already within the limit (in which case
it is returned unchanged). -/
theorem truncateName_length (l : List Char) :
    (truncateName l).length ≤ MAX_FILENAME_LENGTH ∨ truncateName l = l := by
  unfold truncateName
  by_cases hlen : l.length > MAX_FILENAME_LENGTH
  · rw [if_pos hlen]
    left
    by_cases hext : (splitextL l).2.length < MAX_FILENAME_LENGTH
    · rw [if_pos hext]
      rw [List.length_append, List.length_take]
      omega
    · rw [if_neg hext]
      rw [List.length_take]
      omega
  · rw [if_neg hlen]
    right
    rfl

/-- C7: for every input the sanitizer totally computes a non-empty string
of length at most 255 that contains no reserved character
`< > : " / \ | ? *` and no control character (codepoints 0-31 and 127). -/
theorem c7_sanitizer_safe (s : String) :
    sanitizeFilename s ≠ "" ∧
    (sanitizeFilename s).length ≤ MAX_FILENAME_LENGTH ∧
    ∀ c ∈ (sanitizeFilename s).toList, isReserved c = false ∧ isCtrl c = false := by
  unfold sanitizeFilename
  by_cases hs : s.toList.isEmpty = true
  · rw [if_pos hs]
    exact ⟨by decide, by decide, by decide⟩
  · rw [if_neg hs]
    by_cases hr : (truncateName (cleanName s.toList)).isEmpty = true
    · rw [if_pos hr]
      exact ⟨by decide, by decide, by decide⟩
    · rw [if_neg hr]
      refine ⟨?_, ?_, ?_⟩
      · intro habs
        have : truncateName (cleanName s.toList) = [] := by
          have := congrArg String.toList habs
          simpa using this
        rw [this] at hr
        simp at hr
      · show (truncateName (cleanName s.toList)).length ≤ MAX_FILENAME_LENGTH
        rcases truncateName_length (cleanName s.toList) with h | h
        · exact h
        · rw [h]
          rw [← h]
          rcases truncateName_length (cleanName s.toList) with h2 | h2
          · exact h2
          · rw [h2]
            -- here truncateName left the list unchanged, so the guard failed
            unfold truncateName at h2
            by_cases hlen : (cleanName s.toList).length > MAX_FILENAME_LENGTH
            · rw [if_pos hlen] at h2
              by_cases hext : (splitextL (cleanName s.toList)).2.length < MAX_FILENAME_LENGTH
              · rw [if_pos hext] at h2
                have hl := congrArg List.length h2
                rw [List.length_append, List.length_take] at hl
                omega
              · rw [if_neg hext] at h2
                have hl := congrArg List.length h2
                rw [List.length_take] at hl
                omega
            · omega
      · intro c hc
        have : c ∈ truncateName (cleanName s.toList) := by
          simpa using hc
        exact cleanName_chars s.toList c (mem_truncateName _ c this)

theorem c7_sanitizer_safe_witness :
    sanitizeFilename "a<b" ≠ "" ∧
    (sanitizeFilename "a<b").length ≤ MAX_FILENAME_LENGTH ∧
    ∀ c ∈ (sanitizeFilename "a<b").toList, isReserved c = false ∧ isCtrl c = false :=
  c7_sanitizer_safe "a<b"

/-! ## Normal forms of the cleaning phase (for idempotence) -/

/-- No two adjacent characters of the list both satisfy `p`. -/
def noRun (p : Char → Bool) : List Char → Bool
  | a :: b :: rest => !(p a && p b) && noRun p (b :: rest)
  | _ => true

theorem noRun_tail (p : Char → Bool) (a : Char) (l : List Char)
    (h : noRun p (a :: l) = true) : noRun p l = true := by
  cases l with
  | nil => rfl
  | cons b rest =>
    unfold noRun at h
    rw [Bool.and_eq_true] at h
    exact h.2

theorem noRun_pair (p : Char → Bool) (a c : Char) (l : List Char)
    (h : noRun p (a :: l) = true) (hc : l.head? = some c) : (p a && p c) = false := by
  cases l with
  | nil => simp at hc
  | cons b rest =>
    simp only [List.head?_cons, Option.some.injEq] at hc
    unfold noRun at h
    rw [Bool.and_eq_true] at h
    have h1 := h.1
    rw [← hc]
    cases hb : (p a && p b)
    · rfl
    · rw [hb] at h1
      exact absurd h1 (by decide)

theorem noRun_cons_of (p : Char → Bool) (a : Char) (l : List Char)
    (hpair : ∀ c, l.head? = some c → (p a && p c) = false)
    (h : noRun p l = true) : noRun p (a :: l) = true := by
  cases l with
  | nil => rfl
  | cons b rest =>
    unfold noRun
    rw [Bool.and_eq_true]
    refine ⟨?_, h⟩
    rw [hpair b rfl]
    rfl

theorem head?_collapseRunsAux_true (p : Char → Bool) (rep : Char) :
    ∀ (l : List Char) (c : Char), (collapseRunsAux p rep true l).head? = some c →
      p c = false := by
  intro l
  induction l with
  | nil =>
    intro c hc
    simp [collapseRunsAux] at hc
  | cons a rest ih =>
    intro c hc
    unfold collapseRunsAux at hc
    by_cases hp : p a = true
    · rw [if_pos hp] at hc
      exact ih c hc
    · rw [if_neg hp] at hc
      simp only [List.head?_cons, Option.some.injEq] at hc
      rw [← hc]
      cases hq : p a
      · rfl
      · exact absurd hq hp

theorem head?_collapseRunsAux_false (p : Char → Bool) (rep : Char) :
    ∀ (l : List Char) (c : Char), (collapseRunsAux p rep false l).head? = some c →
      c = rep ∨ l.head? = some c := by
  intro l c hc
  cases l with
  | nil => simp [collapseRunsAux] at hc
  | cons a rest =>
    unfold collapseRunsAux at hc
    by_cases hp : p a = true
    · rw [if_pos hp] at hc
      simp only [List.head?_cons, Option.some.injEq] at hc
      exact Or.inl hc.symm
    · rw [if_neg hp] at hc
      simp only [List.head?_cons, Option.some.injEq] at hc
      subst hc
      exact Or.inr rfl

theorem noRun_collapseRunsAux (p : Char → Bool) (rep : Char) :
    ∀ (l : List Char) (b : Bool), noRun p (collapseRunsAux p rep b l) = true := by
  intro l
  induction l with
  | nil =>
    intro b
    cases b <;> rfl
  | cons a rest ih =>
    intro b
    have hnegcase : ¬p a = true → noRun p (a :: collapseRunsAux p rep false rest) = true := by
      intro hp
      refine noRun_cons_of p a _ ?_ (ih false)
      intro c _
      have hpa : p a = false := by
        cases hq : p a
        · rfl
        · exact absurd hq hp
      rw [hpa, Bool.false_and]
    cases b with
    | true =>
      unfold collapseRunsAux
      by_cases hp : p a = true
      · rw [if_pos hp]
        exact ih true
      · rw [if_neg hp]
        exact hnegcase hp
    | false =>
      unfold collapseRunsAux
      by_cases hp : p a = true
      · rw [if_pos hp]
        refine noRun_cons_of p rep _ ?_ (ih true)
        intro c hc
        rw [head?_collapseRunsAux_true p rep rest c hc, Bool.and_false]
      · rw [if_neg hp]
        exact hnegcase hp

theorem noRun_preserved_collapseRunsAux (p : Char → Bool) (rep : Char) (q : Char → Bool)
    (hq : q rep = false) :
    ∀ (l : List Char) (b : Bool), noRun q l = true →
      noRun q (collapseRunsAux p rep b l) = true := by
  intro l
  induction l with
  | nil =>
    intro b _
    cases b <;> rfl
  | cons a rest ih =>
    intro b h
    have hnegcase : noRun q (a :: collapseRunsAux p rep false rest) = true := by
      refine noRun_cons_of q a _ ?_ (ih false (noRun_tail q a rest h))
      intro c hc
      rcases head?_collapseRunsAux_false p rep rest c hc with h1 | h1
      · rw [h1, hq, Bool.and_false]
      · exact noRun_pair q a c rest h h1
    cases b with
    | true =>
      unfold collapseRunsAux
      by_cases hp : p a = true
      · rw [if_pos hp]
        exact ih true (noRun_tail q a rest h)
      · rw [if_neg hp]
        exact hnegcase
    | false =>
      unfold collapseRunsAux
      by_cases hp : p a = true
      · rw [if_pos hp]
        refine noRun_cons_of q rep _ ?_ (ih true (noRun_tail q a rest h))
        intro c _
        rw [hq, Bool.false_and]
      · rw [if_neg hp]
        exact hnegcase

theorem noRun_dropWhile (q p : Char → Bool) :
    ∀ (l : List Char), noRun q l = true → noRun q (l.dropWhile p) = true := by
  intro l
  induction l with
  | nil =>
    intro _
    rfl
  | cons a rest ih =>
    intro h
    rw [List.dropWhile_cons]
    split
    · exact ih (noRun_tail q a rest h)
    · exact h

theorem head?_dropWhile_not (p : Char → Bool) :
    ∀ (l : List Char) (c : Char), (l.dropWhile p).head? = some c → p c = false := by
  intro l
  induction l with
  | nil =>
    intro c hc
    simp at hc
  | cons a rest ih =>
    intro c hc
    rw [List.dropWhile_cons] at hc
    split at hc
    · exact ih c hc
    · rename_i hpa
      simp only [List.head?_cons, Option.some.injEq] at hc
      rw [← hc]
      cases hq : p a
      · rfl
      · exact absurd hq hpa

theorem head?_dropTrailing (p : Char → Bool) :
    ∀ (l : List Char) (c : Char), (dropTrailing p l).head? = some c → l.head? = some c := by
  intro l c hc
  cases l with
  | nil => simp [dropTrailing] at hc
  | cons a rest =>
    unfold dropTrailing at hc
    by_cases hb : ((dropTrailing p rest).isEmpty && p a) = true
    · rw [if_pos hb] at hc
      simp at hc
    · rw [if_neg hb] at hc
      simp only [List.head?_cons, Option.some.injEq] at hc
      rw [List.head?_cons, hc]

theorem noRun_dropTrailing (q p : Char → Bool) :
    ∀ (l : List Char), noRun q l = true → noRun q (dropTrailing p l) = true := by
  intro l
  induction l with
  | nil =>
    intro _
    rfl
  | cons a rest ih =>
    intro h
    unfold dropTrailing
    by_cases hb : ((dropTrailing p rest).isEmpty && p a) = true
    · rw [if_pos hb]
      rfl
    · rw [if_neg hb]
      refine noRun_cons_of q a _ ?_ (ih (noRun_tail q a rest h))
      intro c hc
      exact noRun_pair q a c rest h (head?_dropTrailing p rest c hc)

theorem getLast?_dropTrailing_not (p : Char → Bool) :
    ∀ (l : List Char) (c : Char), (dropTrailing p l).getLast? = some c → p c = false := by
  intro l
  induction l with
  | nil =>
    intro c hc
    simp [dropTrailing] at hc
  | cons a rest ih =>
    intro c hc
    unfold dropTrailing at hc
    by_cases hb : ((dropTrailing p rest).isEmpty && p a) = true
    · rw [if_pos hb] at hc
      simp at hc
    · rw [if_neg hb] at hc
      cases hr : dropTrailing p rest with
      | nil =>
        rw [hr] at hc
        simp only [List.getLast?_singleton, Option.some.injEq] at hc
        rw [← hc]
        rw [hr] at hb
        cases hq : p a
        · rfl
        · rw [hq] at hb
          simp at hb
      | cons d r =>
        rw [hr] at hc
        rw [List.getLast?_cons_cons] at hc
        rw [← hr] at hc
        exact ih c hc

/-! ## The cleaning phase is the identity on its own output -/

theorem dropWhile_eq_self_of_head (p : Char → Bool) (l : List Char)
    (h : ∀ c, l.head? = some c → p c = false) : l.dropWhile p = l := by
  cases l with
  | nil => rfl
  | cons a rest =>
    rw [List.dropWhile_cons, if_neg (by rw [h a rfl]; simp)]

theorem dropTrailing_eq_self_of_getLast (p : Char → Bool) :
    ∀ (l : List Char), (∀ c, l.getLast? = some c → p c = false) → dropTrailing p l = l := by
  intro l
  induction l with
  | nil =>
    intro _
    rfl
  | cons a rest ih =>
    intro h
    cases rest with
    | nil =>
      have hpa : p a = false := h a (by simp)
      unfold dropTrailing
      rw [if_neg (by simp [dropTrailing, hpa])]
      rfl
    | cons b rest2 =>
      have hlast : ∀ c, (b :: rest2).getLast? = some c → p c = false := by
        intro c hc
        apply h
        rw [List.getLast?_cons_cons]
        exact hc
      have hr := ih hlast
      unfold dropTrailing
      rw [hr, if_neg (by simp)]

theorem collapseRunsAux_eq_self (p : Char → Bool) (rep : Char) :
    ∀ (l : List Char), (∀ c ∈ l, p c = true → c = rep) → noRun p l = true →
      collapseRunsAux p rep false l = l := by
  intro l
  induction l with
  | nil =>
    intro _ _
    rfl
  | cons a rest ih =>
    intro hid hnr
    unfold collapseRunsAux
    by_cases hp : p a = true
    · rw [if_pos hp]
      have ha : a = rep := hid a (List.mem_cons_self a rest) hp
      have hrest := ih (fun c hc hpc => hid c (List.mem_cons_of_mem a hc) hpc)
        (noRun_tail p a rest hnr)
      have htail : collapseRunsAux p rep true rest = rest := by
        cases rest with
        | nil => rfl
        | cons b rest2 =>
          have hpb : p b = false := by
            have hpair := noRun_pair p a b (b :: rest2) hnr rfl
            rw [hp, Bool.true_and] at hpair
            exact hpair
          unfold collapseRunsAux at hrest ⊢
          rw [if_neg (by rw [hpb]; simp)] at hrest ⊢
          exact hrest
      rw [htail, ← ha]
    · rw [if_neg hp]
      rw [ih (fun c hc hpc => hid c (List.mem_cons_of_mem a hc) hpc) (noRun_tail p a rest hnr)]

theorem cleanName_noRun_dot (l : List Char) : noRun (· == '.') (cleanName l) = true := by
  unfold cleanName pyStrip
  apply noRun_dropTrailing
  apply noRun_dropWhile
  unfold collapseRuns
  apply noRun_preserved_collapseRunsAux pySpace ' ' _ (by decide)
  exact noRun_collapseRunsAux _ _ _ _

theorem cleanName_noRun_space (l : List Char) : noRun pySpace (cleanName l) = true := by
  unfold cleanName pyStrip
  apply noRun_dropTrailing
  apply noRun_dropWhile
  unfold collapseRuns
  exact noRun_collapseRunsAux _ _ _ _

theorem cleanName_space_is_space (l : List Char) (c : Char) (hc : c ∈ cleanName l)
    (hsp : pySpace c = true) : c = ' ' := by
  unfold cleanName at hc
  have h1 := mem_of_mem_pyStrip _ c hc
  rcases mem_collapseRunsAux pySpace ' ' false _ c h1 with h | ⟨_, h2⟩
  · exact h
  · rw [hsp] at h2
    exact absurd h2 (by decide)

theorem cleanName_head_space (l : List Char) (c : Char)
    (hc : (cleanName l).head? = some c) : pySpace c = false := by
  unfold cleanName pyStrip at hc
  exact head?_dropWhile_not pySpace _ c (head?_dropTrailing pySpace _ c hc)

theorem cleanName_last_space (l : List Char) (c : Char)
    (hc : (cleanName l).getLast? = some c) : pySpace c = false := by
  unfold cleanName pyStrip at hc
  exact getLast?_dropTrailing_not pySpace _ c hc

/-- A list in the normal form guaranteed by the cleaning phase is a fixed
point of the cleaning phase. -/
theorem cleanName_normal_eq_self (l : List Char)
    (hres : ∀ c ∈ l, isReserved c = false)
    (hctl : ∀ c ∈ l, isCtrl c = false)
    (hdot : noRun (· == '.') l = true)
    (hsp : noRun pySpace l = true)
    (hspc : ∀ c ∈ l, pySpace c = true → c = ' ')
    (hh : ∀ c, l.head? = some c → pySpace c = false)
    (hl : ∀ c, l.getLast? = some c → pySpace c = false) :
    cleanName l = l := by
  have h1 : rmReserved l = l := by
    unfold rmReserved
    exact List.filter_eq_self.mpr (fun a ha => by rw [hres a ha]; rfl)
  have h2 : rmCtrl l = l := by
    unfold rmCtrl
    exact List.filter_eq_self.mpr (fun a ha => by rw [hctl a ha]; rfl)
  have h3 : collapseRuns (· == '.') '.' l = l := by
    unfold collapseRuns
    exact collapseRunsAux_eq_self _ _ l (fun c _ hpc => eq_of_beq hpc) hdot
  have h4 : collapseRuns pySpace ' ' l = l := by
    unfold collapseRuns
    exact collapseRunsAux_eq_self _ _ l (fun c hc hpc => hspc c hc hpc) hsp
  have h5 : pyStrip l = l := by
    unfold pyStrip
    rw [dropWhile_eq_self_of_head pySpace l hh]
    exact dropTrailing_eq_self_of_getLast pySpace l hl
  unfold cleanName
  rw [h1, h2, h3, h4]
  exact h5

/-- The character-cleaning phase of the sanitizer is idempotent. -/
theorem cleanName_idem (l : List Char) : cleanName (cleanName l) = cleanName l :=
  cleanName_normal_eq_self (cleanName l)
    (fun c hc => (cleanName_chars l c hc).1)
    (fun c hc => (cleanName_chars l c hc).2)
    (cleanName_noRun_dot l)
    (cleanName_noRun_space l)
    (fun c hc hsp => cleanName_space_is_space l c hc hsp)
    (fun c hc => cleanName_head_space l c hc)
    (fun c hc => cleanName_last_space l c hc)

theorem truncateName_eq_self_of_le (l : List Char)
    (h : l.length ≤ MAX_FILENAME_LENGTH) : truncateName l = l := by
  unfold truncateName
  rw [if_neg (by omega)]

set_option maxRecDepth 10000 in
/-- C6 counterexample: sanitizing a 256-character name whose 255th
character is a space truncates to a name with a trailing space, which a
second sanitize pass strips — so `sanitize(sanitize(x)) ≠ sanitize(x)`. -/
theorem c6_sanitize_not_idempotent_counterexample :
    sanitizeFilename (sanitizeFilename (String.mk (List.replicate 254 'a' ++ [' ', 'b'])))
      ≠ sanitizeFilename (String.mk (List.replicate 254 'a' ++ [' ', 'b'])) := by
  decide

/-- C6 (amended): the sanitizer is idempotent on every input whose cleaned
form is within the 255-character limit — that is, whenever the length
truncation does not fire.  (Truncation is the only source of
non-idempotence: it can cut a name right after a space or a dot, and the
second pass then collapses what the first pass left.) -/
theorem c6_sanitize_idempotent_no_truncation (s : String)
    (h : (cleanName s.toList).length ≤ MAX_FILENAME_LENGTH) :
    sanitizeFilename (sanitizeFilename s) = sanitizeFilename s := by
  by_cases hs : s.toList.isEmpty = true
  · have h1 : sanitizeFilename s = fallbackName := by
      unfold sanitizeFilename
      rw [if_pos hs]
    rw [h1]
    decide
  · have htr : truncateName (cleanName s.toList) = cleanName s.toList :=
      truncateName_eq_self_of_le _ h
    by_cases hr : (cleanName s.toList).isEmpty = true
    · have h1 : sanitizeFilename s = fallbackName := by
        unfold sanitizeFilename
        rw [if_neg hs, htr, if_pos hr]
      rw [h1]
      decide
    · have h1 : sanitizeFilename s = String.mk (cleanName s.toList) := by
        unfold sanitizeFilename
        rw [if_neg hs, htr, if_neg hr]
      rw [h1]
      unfold sanitizeFilename
      have htl : (String.mk (cleanName s.toList)).toList = cleanName s.toList := rfl
      rw [htl, cleanName_idem, htr, if_neg hr, if_neg hr]

theorem c6_sanitize_idempotent_no_truncation_witness :
    (cleanName ("a<b" : String).toList).length ≤ MAX_FILENAME_LENGTH ∧
    sanitizeFilename (sanitizeFilename "a<b") = sanitizeFilename "a<b" :=
  ⟨by decide, c6_sanitize_idempotent_no_truncation "a<b" (by decide)⟩

end Szt
